import Mathlib

/-!
Verification development for the marketViz backend's real-time core:
the WebSocket subscription registry and price poller
(src/services/websocket.service.ts) and the price-alert evaluator
(src/services/alerts.service.ts), embedded shallowly as Lean functions.

JavaScript `Map` is embedded as an association list with unique keys
(insertion order preserved, `set` on an existing key replaces in place);
JavaScript `Set` as a duplicate-free list (insertion order preserved).
-/

namespace MarketViz

/-- JS `Map.prototype.has`. -/
def mapHas [DecidableEq α] (m : List (α × β)) (k : α) : Bool :=
  m.any (fun p => decide (p.1 = k))

/-- JS `Map.prototype.get` (returning `none` for `undefined`). -/
def mapGet [DecidableEq α] (m : List (α × β)) (k : α) : Option β :=
  (m.find? (fun p => decide (p.1 = k))).map Prod.snd

/-- JS `Map.prototype.set`: replaces the value in place when the key is
present, otherwise appends the new entry. -/
def mapSet [DecidableEq α] (m : List (α × β)) (k : α) (v : β) : List (α × β) :=
  if mapHas m k then m.map (fun p => if p.1 = k then (k, v) else p)
  else m ++ [(k, v)]

/-- JS `Map.prototype.delete`. -/
def mapDelete [DecidableEq α] (m : List (α × β)) (k : α) : List (α × β) :=
  m.filter (fun p => decide (p.1 ≠ k))

/-- JS `Set.prototype.add`. -/
def setAdd [DecidableEq α] (s : List α) (x : α) : List α :=
  if x ∈ s then s else s ++ [x]

/-- JS `Set.prototype.delete`. -/
def setDelete [DecidableEq α] (s : List α) (x : α) : List α :=
  s.filter (fun y => decide (y ≠ x))

/-- Keys of an association-list map. -/
def keys (m : List (α × β)) : List α := m.map Prod.fst

abbrev Sym := String
abbrev Sid := String

/-- JS `String.prototype.toUpperCase` (upper-cases each character). -/
def toUpperCase (s : String) : String :=
  String.mk (s.data.map Char.toUpper)

/-- Payload of the periodic `price:update` emission built in
`startPricePolling`'s interval callback (prices modelled as rationals). -/
structure GlobalQuote where
  price : ℚ
  change : ℚ
  changePercent : ℚ
  volume : ℕ
deriving DecidableEq, Repr

/-- Events the WebSocket service emits to sockets or rooms. -/
inductive WSEvent where
  | errorMsg (sid : Sid) (msg : String)
  | subscribedPrices (sid : Sid) (symbols : List Sym)
  | unsubscribedPrices (sid : Sid) (symbols : List Sym)
  | priceUpdate (sym : Sym) (q : GlobalQuote)
deriving DecidableEq, Repr

/-- State of `WebSocketService`: `symbolSubscribers` is the
`Map<string, Set<string>>` of symbol to subscriber socket ids,
`priceIntervals` the `Map<string, NodeJS.Timeout>` of symbol to interval
handle. `activeTimers` tracks every interval created by `setInterval` and
not yet cleared by `clearInterval` (handles drawn from the fresh counter
`nextHandle`), and `rooms` the socket.io room memberships. -/
structure WSState where
  symbolSubscribers : List (Sym × List Sid)
  priceIntervals : List (Sym × ℕ)
  activeTimers : List (Sym × ℕ)
  nextHandle : ℕ
  rooms : List (String × Sid)
deriving DecidableEq, Repr

/-- The service's initial state: empty maps. -/
def initState : WSState :=
  { symbolSubscribers := []
    priceIntervals := []
    activeTimers := []
    nextHandle := 0
    rooms := [] }

/-- From `startPricePolling`: create the interval with `setInterval`
(a fresh live timer) and store its handle in `priceIntervals`. -/
def startPricePolling (st : WSState) (symbol : Sym) : WSState :=
  let handle := st.nextHandle
  { st with
    activeTimers := st.activeTimers ++ [(symbol, handle)]
    priceIntervals := mapSet st.priceIntervals symbol handle
    nextHandle := handle + 1 }

/-- From `stopPricePolling`: if an interval handle is stored for the
symbol, `clearInterval` it and delete the map entry. -/
def stopPricePolling (st : WSState) (symbol : Sym) : WSState :=
  match mapGet st.priceIntervals symbol with
  | some handle =>
      { st with
        activeTimers := st.activeTimers.filter (fun p => decide (p.2 ≠ handle))
        priceIntervals := mapDelete st.priceIntervals symbol }
  | none => st

/-- Body of the `for (const symbol of normalizedSymbols)` loop in
`handlePriceSubscription`: join the symbol room, track the subscriber,
start polling when no interval is active for the symbol. -/
def subscribeSymbol (sid : Sid) (a : WSState) (symbol : Sym) : WSState :=
  let a1 := { a with rooms := setAdd a.rooms ("price:" ++ symbol, sid) }
  let a2 :=
    if mapHas a1.symbolSubscribers symbol then a1
    else { a1 with symbolSubscribers := mapSet a1.symbolSubscribers symbol [] }
  let subs := (mapGet a2.symbolSubscribers symbol).getD []
  let a3 := { a2 with symbolSubscribers := mapSet a2.symbolSubscribers symbol (setAdd subs sid) }
  if mapHas a3.priceIntervals symbol then a3 else startPricePolling a3 symbol

/-- From `handlePriceSubscription`. The `symbols` field of the request is
`none` when missing or not an array, `some l` when an actual array `l`. -/
def handlePriceSubscription (st : WSState) (sid : Sid) (symbols : Option (List Sym)) :
    WSState × List WSEvent :=
  match symbols with
  | none => (st, [.errorMsg sid "Invalid symbols array"])
  | some syms =>
    if syms.length = 0 then (st, [.errorMsg sid "Invalid symbols array"])
    else if 20 < syms.length then
      (st, [.errorMsg sid "Maximum 20 symbols per subscription"])
    else
      let normalizedSymbols := syms.map toUpperCase
      let st1 := normalizedSymbols.foldl (subscribeSymbol sid) st
      (st1, [.subscribedPrices sid normalizedSymbols])

/-- Shared teardown step used by `handlePriceUnsubscription` and
`cleanupSocketSubscriptions`: remove the socket from the symbol's
subscriber set and, when the set becomes empty, stop polling and delete
the `symbolSubscribers` entry. -/
def removeSubscriber (sid : Sid) (a : WSState) (symbol : Sym) : WSState :=
  match mapGet a.symbolSubscribers symbol with
  | none => a
  | some subs =>
      let subs1 := setDelete subs sid
      if subs1.length = 0 then
        let a1 := stopPricePolling a symbol
        { a1 with symbolSubscribers := mapDelete a1.symbolSubscribers symbol }
      else { a with symbolSubscribers := mapSet a.symbolSubscribers symbol subs1 }

/-- Body of the loop in `handlePriceUnsubscription`: leave the symbol room
then apply the shared teardown. -/
def unsubscribeSymbol (sid : Sid) (a : WSState) (symbol : Sym) : WSState :=
  removeSubscriber sid
    { a with rooms := setDelete a.rooms ("price:" ++ symbol, sid) } symbol

/-- From `handlePriceUnsubscription`. A missing or non-array `symbols`
field (`none`) returns silently with no emission. -/
def handlePriceUnsubscription (st : WSState) (sid : Sid) (symbols : Option (List Sym)) :
    WSState × List WSEvent :=
  match symbols with
  | none => (st, [])
  | some syms =>
      let normalizedSymbols := syms.map toUpperCase
      let st1 := normalizedSymbols.foldl (unsubscribeSymbol sid) st
      (st1, [.unsubscribedPrices sid normalizedSymbols])

/-- From `cleanupSocketSubscriptions`: iterate over every
`symbolSubscribers` entry, delete the socket id, tear down symbols left
with no subscribers. -/
def cleanupSocketSubscriptions (st : WSState) (sid : Sid) : WSState :=
  (keys st.symbolSubscribers).foldl (removeSubscriber sid) st

/-- Disconnect handling: `cleanupSocketSubscriptions` plus socket.io's own
removal of the socket from all rooms. -/
def handleDisconnect (st : WSState) (sid : Sid) : WSState :=
  let st1 := cleanupSocketSubscriptions st sid
  { st1 with rooms := st1.rooms.filter (fun p => decide (p.2 ≠ sid)) }

/-- Per-socket auth data set by the handshake middleware. -/
structure SocketData where
  authenticated : Bool
  userId : Option ℕ
deriving DecidableEq, Repr

/-- Interpolation of `socket.data.userId` into a room name template
literal (an absent id prints as `undefined`). -/
def userRoomSuffix (d : SocketData) : String :=
  match d.userId with
  | some u => toString u
  | none => "undefined"

/-- From the `subscribe:alerts` handler in `handleConnection`. -/
def handleSubscribeAlerts (st : WSState) (sid : Sid) (d : SocketData) :
    WSState × List WSEvent :=
  if d.authenticated = false then
    (st, [.errorMsg sid "Authentication required for alert notifications"])
  else
    ({ st with rooms := setAdd st.rooms ("alerts:" ++ userRoomSuffix d, sid) }, [])

/-- From the `subscribe:portfolio` handler in `handleConnection`. -/
def handleSubscribePortfolio (st : WSState) (sid : Sid) (d : SocketData) :
    WSState × List WSEvent :=
  if d.authenticated = false then
    (st, [.errorMsg sid "Authentication required for portfolio updates"])
  else
    ({ st with rooms := setAdd st.rooms ("portfolio:" ++ userRoomSuffix d, sid) }, [])

/-- One tick of the interval callback installed by `startPricePolling` for
a symbol: the callback runs only while the interval exists; `fetch` is the
outcome of `alphaVantageService.getQuote` (`none` when the call throws or
the response carries no `Global Quote`). On success it broadcasts
`price:update`; on failure it only logs. -/
def pollTick (st : WSState) (sym : Sym) (fetch : Option GlobalQuote) :
    WSState × List WSEvent :=
  if mapHas st.priceIntervals sym then
    match fetch with
    | some q => (st, [.priceUpdate sym q])
    | none => (st, [])
  else (st, [])

/-- The service's externally driven operations. -/
inductive WSOp where
  | subPrices (sid : Sid) (symbols : Option (List Sym))
  | unsubPrices (sid : Sid) (symbols : Option (List Sym))
  | disconnect (sid : Sid)
  | subAlerts (sid : Sid) (d : SocketData)
  | subPortfolio (sid : Sid) (d : SocketData)
  | tick (sym : Sym) (fetch : Option GlobalQuote)
deriving Repr

/-- One step of the service. -/
def stepOp (st : WSState) : WSOp → WSState × List WSEvent
  | .subPrices sid symbols => handlePriceSubscription st sid symbols
  | .unsubPrices sid symbols => handlePriceUnsubscription st sid symbols
  | .disconnect sid => (handleDisconnect st sid, [])
  | .subAlerts sid d => handleSubscribeAlerts st sid d
  | .subPortfolio sid d => handleSubscribePortfolio st sid d
  | .tick sym fetch => pollTick st sym fetch

/-- States reachable from the freshly initialized service. -/
inductive Reachable : WSState → Prop
  | init : Reachable initState
  | step (st : WSState) (op : WSOp) : Reachable st → Reachable (stepOp st op).1

/-- Number of subscribers currently recorded for a symbol. -/
def subscriberCount (st : WSState) (sym : Sym) : ℕ :=
  match mapGet st.symbolSubscribers sym with
  | some subs => subs.length
  | none => 0

/-- Number of live (created and not cleared) poll timers for a symbol. -/
def pollTasksFor (st : WSState) (sym : Sym) : ℕ :=
  (st.activeTimers.filter (fun p => decide (p.1 = sym))).length

/-- Symbols a given connection is currently subscribed to. -/
def subscribedSymbols (st : WSState) (sid : Sid) : List Sym :=
  keys (st.symbolSubscribers.filter (fun p => decide (sid ∈ p.2)))

section MapLemmas

variable {α : Type u} {β : Type v} [DecidableEq α]

omit [DecidableEq α] in
theorem keys_append (m m2 : List (α × β)) : keys (m ++ m2) = keys m ++ keys m2 :=
  List.map_append Prod.fst m m2

theorem mapHas_iff_mem_keys {m : List (α × β)} {k : α} :
    mapHas m k = true ↔ k ∈ keys m := by
  unfold mapHas keys
  rw [List.any_eq_true]
  constructor
  · rintro ⟨p, hp, hpk⟩
    rw [decide_eq_true_eq] at hpk
    exact hpk ▸ List.mem_map_of_mem Prod.fst hp
  · intro h
    obtain ⟨p, hp, hpk⟩ := List.mem_map.mp h
    exact ⟨p, hp, by rw [decide_eq_true_eq]; exact hpk⟩

theorem mapHas_false_iff {m : List (α × β)} {k : α} :
    mapHas m k = false ↔ ∀ p ∈ m, p.1 ≠ k := by
  simp [mapHas, List.any_eq_false]

theorem mapGet_eq_none_iff {m : List (α × β)} {k : α} :
    mapGet m k = none ↔ mapHas m k = false := by
  unfold mapGet mapHas
  rw [Option.map_eq_none', List.find?_eq_none, List.any_eq_false]

theorem mapGet_mem {m : List (α × β)} {k : α} {v : β} (h : mapGet m k = some v) :
    (k, v) ∈ m := by
  unfold mapGet at h
  rw [Option.map_eq_some'] at h
  obtain ⟨p, hfind, hv⟩ := h
  have hk : p.1 = k := by
    have := List.find?_some hfind
    simpa using this
  have hm := List.mem_of_find?_eq_some hfind
  have hpkv : p = (k, v) := by
    cases p
    simp only [Prod.mk.injEq]
    exact ⟨hk, hv⟩
  exact hpkv ▸ hm

theorem mapGet_isSome_of_has {m : List (α × β)} {k : α} (h : mapHas m k = true) :
    ∃ v, mapGet m k = some v := by
  cases hg : mapGet m k with
  | none => rw [mapGet_eq_none_iff] at hg; rw [hg] at h; exact absurd h (by simp)
  | some v => exact ⟨v, rfl⟩

theorem mapSet_of_not_has {m : List (α × β)} {k : α} (h : mapHas m k = false) (v : β) :
    mapSet m k v = m ++ [(k, v)] := by
  simp [mapSet, h]

theorem keys_mapSet_of_has {m : List (α × β)} {k : α} (h : mapHas m k = true) (v : β) :
    keys (mapSet m k v) = keys m := by
  simp only [mapSet, h, if_true, keys, List.map_map]
  apply List.map_congr_left
  intro p _
  by_cases hp : p.1 = k <;> simp [hp]

theorem keys_mapDelete (m : List (α × β)) (k : α) :
    keys (mapDelete m k) = (keys m).filter (fun x => decide (x ≠ k)) := by
  simp only [keys, mapDelete, List.filter_map]
  rfl

theorem mem_mapSet {m : List (α × β)} {k : α} {v : β} {p : α × β}
    (h : p ∈ mapSet m k v) : p = (k, v) ∨ (p ∈ m ∧ p.1 ≠ k) := by
  by_cases hh : mapHas m k = true
  · simp only [mapSet, hh, if_true, List.mem_map] at h
    obtain ⟨q, hq, hfq⟩ := h
    by_cases hqk : q.1 = k
    · left; rw [if_pos hqk] at hfq; exact hfq.symm
    · right; rw [if_neg hqk] at hfq; exact hfq ▸ ⟨hq, hqk⟩
  · rw [mapSet_of_not_has (by simpa using hh) v] at h
    rcases List.mem_append.mp h with hm | hm
    · right
      refine ⟨hm, ?_⟩
      exact (mapHas_false_iff.mp (by simpa using hh)) p hm
    · left; simpa using hm

theorem mem_mapDelete {m : List (α × β)} {k : α} {p : α × β}
    (h : p ∈ mapDelete m k) : p ∈ m ∧ p.1 ≠ k := by
  simp only [mapDelete, List.mem_filter, decide_eq_true_eq] at h
  exact h

theorem mapGet_mapSet_self (m : List (α × β)) (k : α) (v : β) :
    mapGet (mapSet m k v) k = some v := by
  by_cases hh : mapHas m k = true
  · simp only [mapSet, hh, if_true, mapGet, List.find?_map]
    obtain ⟨w, hw⟩ := mapGet_isSome_of_has hh
    unfold mapGet at hw
    rw [Option.map_eq_some'] at hw
    obtain ⟨q, hfind, hv⟩ := hw
    have hcomp :
        (fun p : α × β => decide (p.1 = k)) ∘ (fun p : α × β => if p.1 = k then (k, v) else p) =
          fun p : α × β => decide (p.1 = k) := by
      funext p
      by_cases hp : p.1 = k <;> simp [hp]
    rw [hcomp, hfind]
    have hqk : q.1 = k := by simpa using List.find?_some hfind
    simp [hqk]
  · rw [mapSet_of_not_has (by simpa using hh) v]
    have hnone : mapGet m k = none := mapGet_eq_none_iff.mpr (by simpa using hh)
    unfold mapGet at hnone ⊢
    rw [Option.map_eq_none'] at hnone
    rw [List.find?_append, hnone]
    simp

theorem mapGet_mapSet_ne {m : List (α × β)} {k s : α} (hne : s ≠ k) (v : β) :
    mapGet (mapSet m k v) s = mapGet m s := by
  by_cases hh : mapHas m k = true
  · simp only [mapSet, hh, if_true, mapGet, List.find?_map]
    have hcomp :
        (fun p : α × β => decide (p.1 = s)) ∘ (fun p : α × β => if p.1 = k then (k, v) else p) =
          fun p : α × β => decide (p.1 = s) := by
      funext p
      by_cases hp : p.1 = k
      · have h1 : ¬(k = s) := fun h => hne h.symm
        have h2 : ¬(p.1 = s) := fun h => hne (by rw [← h]; exact hp)
        simp [hp, h1, h2]
      · simp [hp]
    rw [hcomp]
    cases hfind : m.find? (fun p : α × β => decide (p.1 = s)) with
    | none => simp
    | some q =>
        have hqs : q.1 = s := by simpa using List.find?_some hfind
        have hqk : ¬(q.1 = k) := fun h => hne (hqs ▸ h)
        simp [hqk]
  · rw [mapSet_of_not_has (by simpa using hh) v]
    unfold mapGet
    rw [List.find?_append]
    cases hfind : m.find? (fun p : α × β => decide (p.1 = s)) with
    | none => simp [Ne.symm hne]
    | some q => simp

omit [DecidableEq α] in
theorem find?_filter_of_imp {l : List α} {p q : α → Bool}
    (h : ∀ a, p a = true → q a = true) :
    (l.filter q).find? p = l.find? p := by
  induction l with
  | nil => rfl
  | cons a l ih =>
      rw [List.filter_cons]
      by_cases hk : q a = true
      · rw [if_pos hk]
        cases hpa : p a with
        | true => rw [List.find?_cons_of_pos _ hpa, List.find?_cons_of_pos _ hpa]
        | false => rw [List.find?_cons_of_neg _ (by simp [hpa]),
            List.find?_cons_of_neg _ (by simp [hpa]), ih]
      · have hpa : p a = false := by
          cases hpra : p a with
          | true => exact absurd (h a hpra) hk
          | false => rfl
        rw [if_neg hk, List.find?_cons_of_neg _ (by simp [hpa]), ih]

theorem mapGet_mapDelete_ne {m : List (α × β)} {k s : α} (hne : s ≠ k) :
    mapGet (mapDelete m k) s = mapGet m s := by
  unfold mapGet mapDelete
  have hf := find?_filter_of_imp (l := m)
    (p := fun x : α × β => decide (x.1 = s)) (q := fun x : α × β => decide (x.1 ≠ k))
    (by
      intro x hx
      rw [decide_eq_true_eq] at hx
      rw [decide_eq_true_eq, hx]
      exact hne)
  rw [hf]

theorem mapHas_mapSet_iff {m : List (α × β)} {k s : α} {v : β} :
    mapHas (mapSet m k v) s = true ↔ (mapHas m s = true ∨ s = k) := by
  rw [mapHas_iff_mem_keys]
  by_cases hh : mapHas m k = true
  · rw [keys_mapSet_of_has hh, ← mapHas_iff_mem_keys]
    constructor
    · exact Or.inl
    · rintro (h | rfl)
      · exact h
      · exact hh
  · rw [mapSet_of_not_has (by simpa using hh) v, keys_append, List.mem_append,
      ← mapHas_iff_mem_keys]
    have : keys [(k, v)] = [k] := rfl
    rw [this, List.mem_singleton]

theorem mapHas_mapDelete_iff {m : List (α × β)} {k s : α} :
    mapHas (mapDelete m k) s = true ↔ (mapHas m s = true ∧ s ≠ k) := by
  rw [mapHas_iff_mem_keys, mapHas_iff_mem_keys, keys_mapDelete]
  simp [List.mem_filter]

theorem nodup_keys_mapSet {m : List (α × β)} {k : α} (h : (keys m).Nodup) (v : β) :
    (keys (mapSet m k v)).Nodup := by
  by_cases hh : mapHas m k = true
  · rw [keys_mapSet_of_has hh]; exact h
  · rw [mapSet_of_not_has (by simpa using hh) v, keys_append]
    have hk : k ∉ keys m := fun hmem => hh (mapHas_iff_mem_keys.mpr hmem)
    rw [List.nodup_append]
    refine ⟨h, List.nodup_singleton k, ?_⟩
    intro x hx hxk
    rw [show keys [(k, v)] = [k] from rfl, List.mem_singleton] at hxk
    exact hk (hxk ▸ hx)

theorem nodup_keys_mapDelete {m : List (α × β)} {k : α} (h : (keys m).Nodup) :
    (keys (mapDelete m k)).Nodup := by
  rw [keys_mapDelete]; exact h.filter _

theorem length_filter_key_le_one {m : List (α × β)} (h : (keys m).Nodup) (s : α) :
    (m.filter (fun p => decide (p.1 = s))).length ≤ 1 := by
  have hkeys : keys (m.filter (fun p => decide (p.1 = s))) =
      (keys m).filter (fun x => decide (x = s)) := by
    simp only [keys, List.filter_map]; rfl
  have hnodup : (keys (m.filter (fun p => decide (p.1 = s)))).Nodup := by
    rw [hkeys]; exact h.filter _
  have hall : ∀ x ∈ keys (m.filter (fun p => decide (p.1 = s))), x = s := by
    intro x hx
    rw [hkeys, List.mem_filter] at hx
    simpa using hx.2
  have hlen : (m.filter (fun p => decide (p.1 = s))).length =
      (keys (m.filter (fun p => decide (p.1 = s)))).length := by
    simp [keys]
  rw [hlen]
  cases hl : keys (m.filter (fun p => decide (p.1 = s))) with
  | nil => simp
  | cons x t =>
      cases t with
      | nil => simp
      | cons y u =>
          exfalso
          rw [hl] at hnodup hall
          have hx : x = s := hall x (by simp)
          have hy : y = s := hall y (by simp)
          rw [hx, hy] at hnodup
          simp at hnodup

theorem mem_of_mapHas {m : List (α × β)} {k : α} (h : mapHas m k = true) :
    ∃ p ∈ m, p.1 = k := by
  simpa [mapHas, List.any_eq_true] using h

end MapLemmas

theorem mapHas_of_mapGet {α β : Type} [DecidableEq α] {m : List (α × β)} {k : α} {v : β}
    (h : mapGet m k = some v) : mapHas m k = true := by
  cases hh : mapHas m k with
  | true => rfl
  | false => rw [← mapGet_eq_none_iff] at hh; rw [hh] at h; exact absurd h (by simp)

theorem setAdd_ne_nil [DecidableEq α] {s : List α} {x : α} : setAdd s x ≠ [] := by
  unfold setAdd
  by_cases hx : x ∈ s
  · rw [if_pos hx]
    intro h
    rw [h] at hx
    exact absurd hx (List.not_mem_nil x)
  · rw [if_neg hx]
    simp

/-- Registry invariant of the WebSocket service: subscriber-map entries are
keyed uniquely and never empty, interval handles are unique and fresh, the
set of live timers is exactly the stored interval map, and a symbol has a
stored interval precisely when it has a subscriber entry. -/
structure Inv (st : WSState) : Prop where
  subsKeysNodup : (keys st.symbolSubscribers).Nodup
  subsNonempty : ∀ p ∈ st.symbolSubscribers, p.2 ≠ []
  intervalKeysNodup : (keys st.priceIntervals).Nodup
  handlesNodup : (st.priceIntervals.map Prod.snd).Nodup
  handlesFresh : ∀ p ∈ st.priceIntervals, p.2 < st.nextHandle
  timersEq : st.activeTimers = st.priceIntervals
  keysMatch : ∀ s, mapHas st.priceIntervals s = true ↔ mapHas st.symbolSubscribers s = true

theorem Inv.initState : Inv MarketViz.initState := by
  constructor <;> simp [MarketViz.initState, keys, mapHas]

theorem Inv.rooms {st : WSState} (h : Inv st) (r : List (String × Sid)) :
    Inv { st with rooms := r } :=
  ⟨h.subsKeysNodup, h.subsNonempty, h.intervalKeysNodup, h.handlesNodup,
   h.handlesFresh, h.timersEq, h.keysMatch⟩

theorem Inv.of_fields {S : List (Sym × List Sid)} {P T : List (Sym × ℕ)} {n : ℕ}
    {R : List (String × Sid)}
    (h1 : (keys S).Nodup) (h2 : ∀ p ∈ S, p.2 ≠ [])
    (h3 : (keys P).Nodup) (h4 : (P.map Prod.snd).Nodup)
    (h5 : ∀ p ∈ P, p.2 < n) (h6 : T = P)
    (h7 : ∀ s, mapHas P s = true ↔ mapHas S s = true) :
    Inv { symbolSubscribers := S, priceIntervals := P, activeTimers := T,
          nextHandle := n, rooms := R } :=
  ⟨h1, h2, h3, h4, h5, h6, h7⟩

theorem startPricePolling_def (st : WSState) (symbol : Sym) :
    startPricePolling st symbol =
      { st with
        activeTimers := st.activeTimers ++ [(symbol, st.nextHandle)]
        priceIntervals := mapSet st.priceIntervals symbol st.nextHandle
        nextHandle := st.nextHandle + 1 } := rfl

theorem subscribeSymbol_inv {a : WSState} (sid : Sid) (symbol : Sym) (h : Inv a) :
    Inv (subscribeSymbol sid a symbol) := by
  unfold subscribeSymbol
  simp only []
  by_cases hh : mapHas a.symbolSubscribers symbol = true
  · -- existing subscriber entry for the symbol
    rw [if_pos hh]
    obtain ⟨subs0, hsubs0⟩ := mapGet_isSome_of_has hh
    rw [hsubs0]
    simp only [Option.getD_some]
    have hpi : mapHas a.priceIntervals symbol = true := (h.keysMatch symbol).mpr hh
    rw [if_pos hpi]
    refine ⟨?_, ?_, h.intervalKeysNodup, h.handlesNodup, h.handlesFresh, h.timersEq, ?_⟩
    · rw [keys_mapSet_of_has hh]
      exact h.subsKeysNodup
    · intro p hp
      rcases mem_mapSet hp with rfl | ⟨hp, _⟩
      · exact setAdd_ne_nil
      · exact h.subsNonempty p hp
    · intro s
      rw [mapHas_mapSet_iff]
      constructor
      · intro hs
        rcases (h.keysMatch s).mp hs with hs2
        exact Or.inl hs2
      · rintro (hs | rfl)
        · exact (h.keysMatch s).mpr hs
        · exact hpi
  · -- fresh symbol: create entry, then start polling
    rw [if_neg hh]
    have hhf : mapHas a.symbolSubscribers symbol = false := by simpa using hh
    have hset := mapSet_of_not_has hhf ([] : List Sid)
    have hget : mapGet (mapSet a.symbolSubscribers symbol ([] : List Sid)) symbol =
        some [] := mapGet_mapSet_self _ _ _
    rw [hget]
    simp only [Option.getD_some]
    have hpif : mapHas a.priceIntervals symbol = false := by
      cases hpi : mapHas a.priceIntervals symbol with
      | false => rfl
      | true => exact absurd ((h.keysMatch symbol).mp hpi) (by simp [hhf])
    have hsubs2has : ∀ s, mapHas (mapSet (mapSet a.symbolSubscribers symbol
        ([] : List Sid)) symbol (setAdd [] sid)) s = true ↔
        (mapHas a.symbolSubscribers s = true ∨ s = symbol) := by
      intro s
      rw [mapHas_mapSet_iff, mapHas_mapSet_iff]
      tauto
    have hpi3 : mapHas (mapSet (mapSet a.symbolSubscribers symbol ([] : List Sid))
        symbol (setAdd [] sid)) symbol = true := by
      rw [hsubs2has]; exact Or.inr rfl
    rw [if_neg (by simp [hpif] : ¬(mapHas a.priceIntervals symbol = true))]
    rw [startPricePolling_def]
    show Inv
      { symbolSubscribers :=
          mapSet (mapSet a.symbolSubscribers symbol ([] : List Sid)) symbol (setAdd [] sid)
        priceIntervals := mapSet a.priceIntervals symbol a.nextHandle
        activeTimers := a.activeTimers ++ [(symbol, a.nextHandle)]
        nextHandle := a.nextHandle + 1
        rooms := setAdd a.rooms ("price:" ++ symbol, sid) }
    have hsymNotInKeys : symbol ∉ keys a.symbolSubscribers :=
      fun hmem => by simp [mapHas_iff_mem_keys.mpr hmem] at hhf
    have hsymNotInPiKeys : symbol ∉ keys a.priceIntervals :=
      fun hmem => by simp [mapHas_iff_mem_keys.mpr hmem] at hpif
    have hpiSet := mapSet_of_not_has hpif a.nextHandle
    refine Inv.of_fields ?_ ?_ ?_ ?_ ?_ ?_ ?_
    · -- subscriber keys stay duplicate free
      apply nodup_keys_mapSet
      apply nodup_keys_mapSet
      exact h.subsKeysNodup
    · intro p hp
      rcases mem_mapSet hp with rfl | ⟨hp, hpne⟩
      · exact (setAdd_ne_nil : setAdd ([] : List Sid) sid ≠ [])
      · rcases mem_mapSet hp with rfl | ⟨hp, _⟩
        · exact absurd rfl hpne
        · exact h.subsNonempty p hp
    · simp only [hpiSet, keys_append]
      rw [List.nodup_append]
      refine ⟨h.intervalKeysNodup, List.nodup_singleton _, ?_⟩
      intro x hx hxk
      rw [show keys [(symbol, a.nextHandle)] = [symbol] from rfl,
        List.mem_singleton] at hxk
      exact hsymNotInPiKeys (hxk ▸ hx)
    · simp only [hpiSet, List.map_append]
      rw [List.nodup_append]
      refine ⟨h.handlesNodup, by simp, ?_⟩
      intro x hx hxk
      simp only [List.map_cons, List.map_nil, List.mem_singleton] at hxk
      obtain ⟨p, hp, hps⟩ := List.mem_map.mp hx
      have := h.handlesFresh p hp
      omega
    · intro p hp
      simp only [hpiSet] at hp
      rcases List.mem_append.mp hp with hp | hp
      · have := h.handlesFresh p hp
        omega
      · simp only [List.mem_singleton] at hp
        subst hp
        omega
    · simp only [hpiSet, h.timersEq]
    · intro s
      simp only [hpiSet]
      rw [show a.priceIntervals ++ [(symbol, a.nextHandle)] =
        mapSet a.priceIntervals symbol a.nextHandle from (mapSet_of_not_has hpif _).symm]
      rw [mapHas_mapSet_iff, hsubs2has]
      constructor
      · rintro (hs | rfl)
        · exact Or.inl ((h.keysMatch s).mp hs)
        · exact Or.inr rfl
      · rintro (hs | rfl)
        · exact Or.inl ((h.keysMatch s).mpr hs)
        · exact Or.inr rfl

theorem removeSubscriber_inv {a : WSState} (sid : Sid) (symbol : Sym) (h : Inv a) :
    Inv (removeSubscriber sid a symbol) := by
  unfold removeSubscriber
  cases hget : mapGet a.symbolSubscribers symbol with
  | none => exact h
  | some subs =>
      simp only []
      have hhas : mapHas a.symbolSubscribers symbol = true := mapHas_of_mapGet hget
      have hpiHas : mapHas a.priceIntervals symbol = true := (h.keysMatch symbol).mpr hhas
      by_cases hlen : (setDelete subs sid).length = 0
      · rw [if_pos hlen]
        obtain ⟨handle, hhandle⟩ := mapGet_isSome_of_has hpiHas
        unfold stopPricePolling
        rw [hhandle]
        have hmemh : (symbol, handle) ∈ a.priceIntervals := mapGet_mem hhandle
        refine Inv.of_fields ?_ ?_ ?_ ?_ ?_ ?_ ?_
        · exact nodup_keys_mapDelete h.subsKeysNodup
        · intro p hp
          exact h.subsNonempty p (mem_mapDelete hp).1
        · exact nodup_keys_mapDelete h.intervalKeysNodup
        · exact h.handlesNodup.sublist ((List.filter_sublist _).map Prod.snd)
        · intro p hp
          exact h.handlesFresh p (mem_mapDelete hp).1
        · rw [h.timersEq]
          apply List.filter_congr
          intro p hp
          rw [decide_eq_decide]
          have hfst : p.1 = symbol → p = (symbol, handle) := by
            intro hps
            exact List.inj_on_of_nodup_map (f := Prod.fst) h.intervalKeysNodup hp hmemh hps
          have hsnd : p.2 = handle → p = (symbol, handle) := by
            intro hph
            exact List.inj_on_of_nodup_map (f := Prod.snd) h.handlesNodup hp hmemh hph
          constructor
          · intro hne hps
            exact hne (congrArg Prod.snd (hfst hps))
          · intro hne hph
            exact hne (congrArg Prod.fst (hsnd hph))
        · intro s
          rw [mapHas_mapDelete_iff, mapHas_mapDelete_iff]
          exact and_congr_left (fun _ => h.keysMatch s)
      · rw [if_neg hlen]
        refine Inv.of_fields ?_ ?_ h.intervalKeysNodup h.handlesNodup h.handlesFresh
          h.timersEq ?_
        · rw [keys_mapSet_of_has hhas]
          exact h.subsKeysNodup
        · intro p hp
          rcases mem_mapSet hp with rfl | ⟨hp, _⟩
          · exact fun he => hlen (List.length_eq_zero.mpr he)
          · exact h.subsNonempty p hp
        · intro s
          rw [mapHas_mapSet_iff]
          constructor
          · intro hs
            exact Or.inl ((h.keysMatch s).mp hs)
          · rintro (hs | rfl)
            · exact (h.keysMatch s).mpr hs
            · exact hpiHas

theorem unsubscribeSymbol_inv {a : WSState} (sid : Sid) (symbol : Sym) (h : Inv a) :
    Inv (unsubscribeSymbol sid a symbol) :=
  removeSubscriber_inv sid symbol (h.rooms _)

theorem foldl_inv {σ γ : Type} {P : σ → Prop} {f : σ → γ → σ}
    (hf : ∀ a x, P a → P (f a x)) :
    ∀ (l : List γ) (a : σ), P a → P (l.foldl f a)
  | [], _, h => h
  | x :: l, a, h => foldl_inv hf l (f a x) (hf a x h)

theorem handlePriceSubscription_inv {st : WSState} (sid : Sid)
    (symbols : Option (List Sym)) (h : Inv st) :
    Inv (handlePriceSubscription st sid symbols).1 := by
  unfold handlePriceSubscription
  cases symbols with
  | none => exact h
  | some syms =>
      show Inv ((if syms.length = 0 then
          (st, [WSEvent.errorMsg sid "Invalid symbols array"])
        else if 20 < syms.length then
          (st, [WSEvent.errorMsg sid "Maximum 20 symbols per subscription"])
        else ((syms.map toUpperCase).foldl (subscribeSymbol sid) st,
          [WSEvent.subscribedPrices sid (syms.map toUpperCase)]))).1
      by_cases h0 : syms.length = 0
      · rw [if_pos h0]; exact h
      · rw [if_neg h0]
        by_cases h20 : 20 < syms.length
        · rw [if_pos h20]; exact h
        · rw [if_neg h20]
          exact foldl_inv (fun a x hx => subscribeSymbol_inv sid x hx) _ st h

theorem handlePriceUnsubscription_inv {st : WSState} (sid : Sid)
    (symbols : Option (List Sym)) (h : Inv st) :
    Inv (handlePriceUnsubscription st sid symbols).1 := by
  cases symbols with
  | none => exact h
  | some syms =>
      exact foldl_inv (fun a x hx => unsubscribeSymbol_inv sid x hx)
        (syms.map toUpperCase) st h

theorem handleDisconnect_inv {st : WSState} (sid : Sid) (h : Inv st) :
    Inv (handleDisconnect st sid) :=
  Inv.rooms (foldl_inv (fun a x hx => removeSubscriber_inv sid x hx) _ st h) _

theorem pollTick_fst (st : WSState) (sym : Sym) (fetch : Option GlobalQuote) :
    (pollTick st sym fetch).1 = st := by
  unfold pollTick
  by_cases hh : mapHas st.priceIntervals sym = true
  · rw [if_pos hh]
    cases fetch <;> rfl
  · rw [if_neg hh]

theorem stepOp_inv {st : WSState} (op : WSOp) (h : Inv st) : Inv (stepOp st op).1 := by
  cases op with
  | subPrices sid symbols => exact handlePriceSubscription_inv sid symbols h
  | unsubPrices sid symbols => exact handlePriceUnsubscription_inv sid symbols h
  | disconnect sid => exact handleDisconnect_inv sid h
  | subAlerts sid d =>
      show Inv (handleSubscribeAlerts st sid d).1
      unfold handleSubscribeAlerts
      by_cases ha : d.authenticated = false
      · rw [if_pos ha]; exact h
      · rw [if_neg ha]; exact h.rooms _
  | subPortfolio sid d =>
      show Inv (handleSubscribePortfolio st sid d).1
      unfold handleSubscribePortfolio
      by_cases ha : d.authenticated = false
      · rw [if_pos ha]; exact h
      · rw [if_neg ha]; exact h.rooms _
  | tick sym fetch =>
      show Inv (pollTick st sym fetch).1
      rw [pollTick_fst st sym fetch]
      exact h

theorem reachable_inv {st : WSState} (h : Reachable st) : Inv st := by
  induction h with
  | init => exact Inv.initState
  | step st op hst ih => exact stepOp_inv op ih

theorem subscriberCount_eq_zero_iff {st : WSState} (h : Inv st) (sym : Sym) :
    subscriberCount st sym = 0 ↔ mapHas st.symbolSubscribers sym = false := by
  unfold subscriberCount
  cases hg : mapGet st.symbolSubscribers sym with
  | none => simp [mapGet_eq_none_iff.mp hg]
  | some subs =>
      have hne : subs ≠ [] := h.subsNonempty _ (mapGet_mem hg)
      have hhas := mapHas_of_mapGet hg
      constructor
      · intro hlen
        exact absurd (List.length_eq_zero.mp hlen) hne
      · intro hf
        rw [hhas] at hf
        cases hf

theorem pollTasksFor_le_one {st : WSState} (h : Inv st) (sym : Sym) :
    pollTasksFor st sym ≤ 1 := by
  unfold pollTasksFor
  rw [h.timersEq]
  exact length_filter_key_le_one h.intervalKeysNodup sym

theorem pollTasksFor_eq_zero_iff {st : WSState} (h : Inv st) (sym : Sym) :
    pollTasksFor st sym = 0 ↔ mapHas st.priceIntervals sym = false := by
  unfold pollTasksFor
  rw [h.timersEq, List.length_eq_zero, List.filter_eq_nil_iff, mapHas_false_iff]
  simp

theorem setDelete_of_not_mem [DecidableEq α] {s : List α} {x : α} (h : x ∉ s) :
    setDelete s x = s := by
  unfold setDelete
  rw [List.filter_eq_self]
  intro a ha
  rw [decide_eq_true_eq]
  exact fun he => h (he ▸ ha)

theorem mapSet_self {α β : Type} [DecidableEq α] {m : List (α × β)} {k : α} {v : β}
    (hkeys : (keys m).Nodup) (hget : mapGet m k = some v) : mapSet m k v = m := by
  have hhas := mapHas_of_mapGet hget
  have hmem := mapGet_mem hget
  simp only [mapSet, hhas, if_true]
  conv_rhs => rw [← List.map_id m]
  apply List.map_congr_left
  intro p hp
  by_cases hpk : p.1 = k
  · have : p = (k, v) := List.inj_on_of_nodup_map (f := Prod.fst) hkeys hp hmem hpk
    rw [if_pos hpk, this]
    rfl
  · rw [if_neg hpk]
    rfl

theorem foldl_inv_mem {σ γ : Type} {P : σ → Prop} {f : σ → γ → σ} :
    ∀ (l : List γ) (a : σ), (∀ x ∈ l, ∀ b, P b → P (f b x)) → P a → P (l.foldl f a)
  | [], _, _, h => h
  | x :: l, a, hf, h =>
      foldl_inv_mem l (f a x) (fun y hy b hb => hf y (List.mem_cons_of_mem x hy) b hb)
        (hf x (List.mem_cons_self x l) a h)

/-- Twenty distinct symbols used as concrete inputs. -/
def syms20 : List Sym :=
  ["A", "B", "C", "D", "E", "F", "G", "H", "I", "J",
   "K", "L", "M", "N", "O", "P", "Q", "R", "S", "T"]

/-- C1 counterexample: a connection subscribed to 20 symbols issues one more
subscribe:prices request for a 21st symbol. The union of existing and
requested symbols has size 21 > 20, yet the request succeeds (the response
is subscribed:prices, not a validation error) and afterwards the connection
is subscribed to 21 symbols, refuting both the union-cap rejection and the
claimed bound of 20 subscribed symbols per connection. -/
theorem C1_counterexample :
    (subscribedSymbols (handlePriceSubscription initState "c1" (some syms20)).1 "c1").length
        = 20 ∧
    (handlePriceSubscription (handlePriceSubscription initState "c1" (some syms20)).1
        "c1" (some ["U"])).2 = [WSEvent.subscribedPrices "c1" ["U"]] ∧
    (subscribedSymbols
        (handlePriceSubscription (handlePriceSubscription initState "c1" (some syms20)).1
          "c1" (some ["U"])).1 "c1").length = 21 := by
  set_option maxRecDepth 40000 in decide

/-- C1 (amended): the 20-symbol cap is enforced per request, not on the
union with already-subscribed symbols: a subscribe:prices request whose own
symbol array has more than 20 entries fails with the validation error and
changes nothing, while the size of a connection's accumulated subscribed
set is not bounded. -/
theorem C1_per_request_cap (st : WSState) (sid : Sid) (syms : List Sym)
    (h : 20 < syms.length) :
    handlePriceSubscription st sid (some syms) =
      (st, [WSEvent.errorMsg sid "Maximum 20 symbols per subscription"]) := by
  unfold handlePriceSubscription
  show (if syms.length = 0 then (st, [WSEvent.errorMsg sid "Invalid symbols array"])
    else if 20 < syms.length then
      (st, [WSEvent.errorMsg sid "Maximum 20 symbols per subscription"])
    else ((syms.map toUpperCase).foldl (subscribeSymbol sid) st,
      [WSEvent.subscribedPrices sid (syms.map toUpperCase)]))
    = (st, [WSEvent.errorMsg sid "Maximum 20 symbols per subscription"])
  rw [if_neg (by omega), if_pos h]

/-- Witness for C1 (amended) on a concrete 21-symbol request. -/
theorem C1_per_request_cap_witness :
    handlePriceSubscription initState "c1" (some (syms20 ++ ["U"])) =
      (initState, [WSEvent.errorMsg "c1" "Maximum 20 symbols per subscription"]) :=
  C1_per_request_cap initState "c1" (syms20 ++ ["U"]) (by decide)

/-- C2: in every reachable state of the service (hence after every
subscribe, unsubscribe and disconnect), a symbol has zero subscribers
exactly when it has no live poll task, and at most one live poll task
exists per symbol. -/
theorem C2_subscriber_poll_invariant (st : WSState) (h : Reachable st) (sym : Sym) :
    (subscriberCount st sym = 0 ↔ pollTasksFor st sym = 0) ∧ pollTasksFor st sym ≤ 1 := by
  have hinv := reachable_inv h
  refine ⟨?_, pollTasksFor_le_one hinv sym⟩
  rw [subscriberCount_eq_zero_iff hinv, pollTasksFor_eq_zero_iff hinv]
  have hk := hinv.keysMatch sym
  constructor
  · intro hf
    cases hpi : mapHas st.priceIntervals sym with
    | false => rfl
    | true => rw [hk.mp hpi] at hf; cases hf
  · intro hf
    cases hs : mapHas st.symbolSubscribers sym with
    | false => rfl
    | true => rw [hk.mpr hs] at hf; cases hf

/-- Concrete reachable state: one connection subscribed to AAPL. -/
def c2State : WSState :=
  (stepOp initState (WSOp.subPrices "c1" (some ["AAPL"]))).1

theorem c2State_reachable : Reachable c2State :=
  Reachable.step initState (WSOp.subPrices "c1" (some ["AAPL"])) Reachable.init

/-- Witness for C2 at a concrete reachable state and symbol. -/
theorem C2_subscriber_poll_invariant_witness :
    (subscriberCount c2State "AAPL" = 0 ↔ pollTasksFor c2State "AAPL" = 0) ∧
      pollTasksFor c2State "AAPL" ≤ 1 :=
  C2_subscriber_poll_invariant c2State c2State_reachable "AAPL"

/-- C7: subscribe:alerts and subscribe:portfolio from an unauthenticated
connection fail with an error whose message extends "Authentication
required" and leave the state unchanged (no channel joined), while an
authenticated connection joins its user-scoped channel. -/
theorem C7_auth_required_channels (st : WSState) (sid : Sid) (uid : Option ℕ) :
    handleSubscribeAlerts st sid ⟨false, uid⟩ =
        (st, [WSEvent.errorMsg sid
          ("Authentication required" ++ " for alert notifications")]) ∧
      handleSubscribePortfolio st sid ⟨false, uid⟩ =
        (st, [WSEvent.errorMsg sid
          ("Authentication required" ++ " for portfolio updates")]) ∧
      handleSubscribeAlerts st sid ⟨true, uid⟩ =
        ({ st with
            rooms := setAdd st.rooms ("alerts:" ++ userRoomSuffix ⟨true, uid⟩, sid) },
          []) ∧
      handleSubscribePortfolio st sid ⟨true, uid⟩ =
        ({ st with
            rooms := setAdd st.rooms ("portfolio:" ++ userRoomSuffix ⟨true, uid⟩, sid) },
          []) := by
  refine ⟨?_, ?_, rfl, rfl⟩
  · show (st, [WSEvent.errorMsg sid "Authentication required for alert notifications"])
        = (st, [WSEvent.errorMsg sid
          ("Authentication required" ++ " for alert notifications")])
    rw [show "Authentication required" ++ " for alert notifications"
        = "Authentication required for alert notifications" from by decide]
  · show (st, [WSEvent.errorMsg sid "Authentication required for portfolio updates"])
        = (st, [WSEvent.errorMsg sid
          ("Authentication required" ++ " for portfolio updates")])
    rw [show "Authentication required" ++ " for portfolio updates"
        = "Authentication required for portfolio updates" from by decide]

/-- C8: an unsubscribe:prices request naming only symbols the connection is
not subscribed to succeeds with unsubscribed:prices and leaves every
subscriber set, the interval map and all live timers unchanged. -/
theorem C8_unsubscribe_never_subscribed_noop (st : WSState) (sid : Sid) (syms : List Sym)
    (hreach : Reachable st)
    (hnot : ∀ s ∈ syms.map toUpperCase, sid ∉ (mapGet st.symbolSubscribers s).getD []) :
    (handlePriceUnsubscription st sid (some syms)).1.symbolSubscribers
        = st.symbolSubscribers ∧
      (handlePriceUnsubscription st sid (some syms)).1.priceIntervals
        = st.priceIntervals ∧
      (handlePriceUnsubscription st sid (some syms)).1.activeTimers = st.activeTimers ∧
      (handlePriceUnsubscription st sid (some syms)).2
        = [WSEvent.unsubscribedPrices sid (syms.map toUpperCase)] := by
  have hinv := reachable_inv hreach
  have hstep : ∀ x ∈ syms.map toUpperCase, ∀ b : WSState,
      (b.symbolSubscribers = st.symbolSubscribers ∧ b.priceIntervals = st.priceIntervals ∧
        b.activeTimers = st.activeTimers) →
      ((unsubscribeSymbol sid b x).symbolSubscribers = st.symbolSubscribers ∧
        (unsubscribeSymbol sid b x).priceIntervals = st.priceIntervals ∧
        (unsubscribeSymbol sid b x).activeTimers = st.activeTimers) := by
    intro x hx b hb
    obtain ⟨hb1, hb2, hb3⟩ := hb
    unfold unsubscribeSymbol removeSubscriber
    simp only [hb1]
    cases hg : mapGet st.symbolSubscribers x with
    | none => exact ⟨rfl, hb2, hb3⟩
    | some subs =>
        simp only []
        have hsid : sid ∉ subs := by
          have := hnot x hx
          rw [hg] at this
          exact this
        have hdel : setDelete subs sid = subs := setDelete_of_not_mem hsid
        have hnil : subs ≠ [] := hinv.subsNonempty _ (mapGet_mem hg)
        have hlen : ¬((setDelete subs sid).length = 0) := by
          rw [hdel]
          exact fun hz => hnil (List.length_eq_zero.mp hz)
        rw [if_neg hlen, hdel]
        exact ⟨by simpa [hb1] using mapSet_self hinv.subsKeysNodup hg, hb2, hb3⟩
  have hres := foldl_inv_mem
    (P := fun a : WSState => a.symbolSubscribers = st.symbolSubscribers ∧
      a.priceIntervals = st.priceIntervals ∧ a.activeTimers = st.activeTimers)
    (syms.map toUpperCase) st hstep ⟨rfl, rfl, rfl⟩
  exact ⟨hres.1, hres.2.1, hres.2.2, rfl⟩

/-- Witness for C8: a second connection unsubscribes a symbol only the
first connection is subscribed to. -/
theorem C8_unsubscribe_never_subscribed_noop_witness :
    (handlePriceUnsubscription c2State "c2" (some ["AAPL"])).1.symbolSubscribers
        = c2State.symbolSubscribers ∧
      (handlePriceUnsubscription c2State "c2" (some ["AAPL"])).1.priceIntervals
        = c2State.priceIntervals ∧
      (handlePriceUnsubscription c2State "c2" (some ["AAPL"])).1.activeTimers
        = c2State.activeTimers ∧
      (handlePriceUnsubscription c2State "c2" (some ["AAPL"])).2
        = [WSEvent.unsubscribedPrices "c2" (["AAPL"].map toUpperCase)] :=
  C8_unsubscribe_never_subscribed_noop c2State "c2" ["AAPL"] c2State_reachable (by decide)

/-- C9: a subscribe:prices request with a missing or non-array symbols
field, or an empty symbols array, is rejected with the error message
"Invalid symbols array" and changes no server-side state. -/
theorem C9_invalid_symbols_rejected (st : WSState) (sid : Sid) :
    handlePriceSubscription st sid none =
        (st, [WSEvent.errorMsg sid "Invalid symbols array"]) ∧
      handlePriceSubscription st sid (some []) =
        (st, [WSEvent.errorMsg sid "Invalid symbols array"]) :=
  ⟨rfl, rfl⟩

/-- C10: an unsubscribe:prices request with a missing or non-array symbols
field is silently ignored: no event is emitted and the state is unchanged. -/
theorem C10_unsubscribe_missing_symbols_silent (st : WSState) (sid : Sid) :
    handlePriceUnsubscription st sid none = (st, []) := rfl

/-- Alert conditions, from src/services/alerts.service.ts. -/
inductive AlertCondition where
  | ABOVE
  | BELOW
  | CROSSES_ABOVE
  | CROSSES_BELOW
deriving DecidableEq, Repr

/-- Alert statuses, from src/services/alerts.service.ts. -/
inductive AlertStatus where
  | ACTIVE
  | TRIGGERED
  | CANCELLED
deriving DecidableEq, Repr

/-- A persisted price alert row (prices modelled as rationals, timestamps
as naturals). -/
structure Alert where
  id : ℕ
  userId : ℕ
  symbol : String
  condition : AlertCondition
  targetPrice : ℚ
  status : AlertStatus
  triggeredAt : Option ℕ
deriving DecidableEq, Repr

/-- The condition switch of checkAlertsForSymbol and checkUserAlerts
(the two code sites carry the identical switch; CROSSES variants are
evaluated like ABOVE/BELOW for lack of prior-price state). -/
def evalTriggered (condition : AlertCondition) (currentPrice targetPrice : ℚ) : Bool :=
  match condition with
  | .ABOVE => decide (currentPrice ≥ targetPrice)
  | .BELOW => decide (currentPrice ≤ targetPrice)
  | .CROSSES_ABOVE => decide (currentPrice ≥ targetPrice)
  | .CROSSES_BELOW => decide (currentPrice ≤ targetPrice)

/-- The prisma.priceAlert.update call setting status TRIGGERED and
triggeredAt on the row with the given id. -/
def markTriggered (db : List Alert) (alertId : ℕ) (now : ℕ) : List Alert :=
  db.map (fun a =>
    if a.id = alertId then { a with status := .TRIGGERED, triggeredAt := some now } else a)

/-- Body of the for-loop in checkAlertsForSymbol: on trigger, update the
row and push the (pre-update) alert record onto triggeredAlerts. -/
def checkAlertStep (currentPrice : ℚ) (now : ℕ) (acc : List Alert × List Alert)
    (alert : Alert) : List Alert × List Alert :=
  if evalTriggered alert.condition currentPrice alert.targetPrice then
    (markTriggered acc.1 alert.id now, acc.2 ++ [alert])
  else acc

/-- From checkAlertsForSymbol: select the ACTIVE alerts on the (upper-cased)
symbol, evaluate each against the current price, mark the triggered ones and
return them; the returned pair is the updated store plus the triggeredAlerts
list (the source also decorates each returned row with currentPrice and a
triggered flag, omitted here). -/
def checkAlertsForSymbol (db : List Alert) (symbol : String) (currentPrice : ℚ)
    (now : ℕ) : List Alert × List Alert :=
  let activeAlerts := db.filter
    (fun a => decide (a.symbol = toUpperCase symbol ∧ a.status = AlertStatus.ACTIVE))
  activeAlerts.foldl (checkAlertStep currentPrice now) (db, [])

/-- Keys of a JS Map in insertion order, as built by the symbol grouping
loop of checkUserAlerts. -/
def insertionKeys (l : List String) : List String :=
  l.foldl (fun acc s => if s ∈ acc then acc else acc ++ [s]) []

/-- Body of the inner per-alert loop of checkUserAlerts. -/
def checkUserAlertStep (currentPrice : ℚ) (now : ℕ)
    (acc : List Alert × List (Alert × Bool)) (alert : Alert) :
    List Alert × List (Alert × Bool) :=
  if evalTriggered alert.condition currentPrice alert.targetPrice then
    (markTriggered acc.1 alert.id now, acc.2 ++ [(alert, true)])
  else (acc.1, acc.2 ++ [(alert, false)])

/-- Body of the per-symbol loop of checkUserAlerts: a failed quote fetch
(or one without a price) records every alert of the group as untriggered
and touches nothing; a successful fetch evaluates the group. -/
def checkUserSymbolStep (activeAlerts : List Alert) (fetch : String → Option ℚ)
    (now : ℕ) (acc : List Alert × List (Alert × Bool)) (symbol : String) :
    List Alert × List (Alert × Bool) :=
  let alerts := activeAlerts.filter (fun a => decide (a.symbol = symbol))
  match fetch symbol with
  | none => (acc.1, acc.2 ++ alerts.map (fun a => (a, false)))
  | some currentPrice => alerts.foldl (checkUserAlertStep currentPrice now) acc

/-- From checkUserAlerts: group the user's ACTIVE alerts by symbol (one
fetch per distinct symbol, insertion order), evaluate each group against
its fetched price; fetch is the outcome of alphaVantageService.getQuote
(none when the call throws or the response has no price). -/
def checkUserAlerts (db : List Alert) (userId : ℕ) (fetch : String → Option ℚ)
    (now : ℕ) : List Alert × List (Alert × Bool) :=
  let activeAlerts := db.filter
    (fun a => decide (a.userId = userId ∧ a.status = AlertStatus.ACTIVE))
  let symbols := insertionKeys (activeAlerts.map Alert.symbol)
  symbols.foldl (checkUserSymbolStep activeAlerts fetch now) (db, [])

theorem markTriggered_getElem_ne {db : List Alert} {i : ℕ} {a : Alert} {alertId now : ℕ}
    (h : db[i]? = some a) (hne : a.id ≠ alertId) :
    (markTriggered db alertId now)[i]? = some a := by
  unfold markTriggered
  rw [List.getElem?_map, h]
  simp [hne]

theorem checkAlertStep_fold_preserves (currentPrice : ℚ) (now : ℕ) :
    ∀ (alerts : List Alert) (acc : List Alert × List Alert) (i : ℕ) (a : Alert),
      acc.1[i]? = some a → (∀ b ∈ alerts, b.id ≠ a.id) →
      (alerts.foldl (checkAlertStep currentPrice now) acc).1[i]? = some a := by
  intro alerts
  induction alerts with
  | nil => intro acc i a h _; exact h
  | cons b rest ih =>
      intro acc i a h hne
      rw [List.foldl_cons]
      apply ih
      · unfold checkAlertStep
        by_cases ht : evalTriggered b.condition currentPrice b.targetPrice = true
        · rw [if_pos ht]
          exact markTriggered_getElem_ne h
            (fun he => hne b (List.mem_cons_self b rest) he.symm)
        · rw [if_neg ht]
          exact h
      · intro c hc
        exact hne c (List.mem_cons_of_mem b hc)

theorem checkUserAlertStep_fold_preserves (currentPrice : ℚ) (now : ℕ) :
    ∀ (alerts : List Alert) (acc : List Alert × List (Alert × Bool)) (i : ℕ) (a : Alert),
      acc.1[i]? = some a → (∀ b ∈ alerts, b.id ≠ a.id) →
      (alerts.foldl (checkUserAlertStep currentPrice now) acc).1[i]? = some a := by
  intro alerts
  induction alerts with
  | nil => intro acc i a h _; exact h
  | cons b rest ih =>
      intro acc i a h hne
      rw [List.foldl_cons]
      apply ih
      · unfold checkUserAlertStep
        by_cases ht : evalTriggered b.condition currentPrice b.targetPrice = true
        · rw [if_pos ht]
          exact markTriggered_getElem_ne h
            (fun he => hne b (List.mem_cons_self b rest) he.symm)
        · rw [if_neg ht]
          exact h
      · intro c hc
        exact hne c (List.mem_cons_of_mem b hc)

theorem checkUserSymbolStep_fold_preserves (activeAlerts : List Alert)
    (fetch : String → Option ℚ) (now : ℕ) :
    ∀ (symbols : List String) (acc : List Alert × List (Alert × Bool)) (i : ℕ) (a : Alert),
      acc.1[i]? = some a →
      (∀ b ∈ activeAlerts, fetch b.symbol = none ∨ b.id ≠ a.id) →
      ((symbols.foldl (checkUserSymbolStep activeAlerts fetch now) acc).1)[i]? = some a := by
  intro symbols
  induction symbols with
  | nil => intro acc i a h _; exact h
  | cons s rest ih =>
      intro acc i a h hcond
      rw [List.foldl_cons]
      refine ih _ i a ?_ hcond
      unfold checkUserSymbolStep
      cases hf : fetch s with
      | none => exact h
      | some currentPrice =>
          apply checkUserAlertStep_fold_preserves
          · exact h
          · intro b hb
            have hbs : b.symbol = s := by
              simpa using (List.mem_filter.mp hb).2
            have hbm : b ∈ activeAlerts := (List.mem_filter.mp hb).1
            rcases hcond b hbm with hnone | hne
            · rw [hbs] at hnone
              rw [hnone] at hf
              cases hf
            · exact hne

/-- Concrete ACTIVE alert for the C3 scenario. -/
def aaplAlert : Alert :=
  { id := 1, userId := 7, symbol := "AAPL", condition := AlertCondition.ABOVE,
    targetPrice := 200, status := AlertStatus.ACTIVE, triggeredAt := none }

/-- Concrete CANCELLED alert used as a witness input. -/
def cancelledAlert : Alert :=
  { id := 2, userId := 7, symbol := "MSFT", condition := AlertCondition.BELOW,
    targetPrice := 100, status := AlertStatus.CANCELLED, triggeredAt := none }

/-- Concrete ACTIVE alert on MSFT for the C6 scenario. -/
def msftAlert : Alert :=
  { id := 3, userId := 7, symbol := "MSFT", condition := AlertCondition.ABOVE,
    targetPrice := 300, status := AlertStatus.ACTIVE, triggeredAt := none }

/-- Modelled from the spec: the notification wiring is absent under src
(emitAlertTriggered in websocket.service.ts has no caller in the
repository); per spec section 4.4 the evaluator publishes one
alert:triggered notification per transitioned alert, i.e. one per entry of
the triggeredAlerts list returned by checkAlertsForSymbol. -/
def alertTriggeredCount (triggeredAlerts : List Alert) : ℕ :=
  triggeredAlerts.length

/-- C3: terminal alert rows (status TRIGGERED or CANCELLED) are never
selected or modified by an evaluation, so status and triggeredAt are
monotonic; and in the concrete scenario an ACTIVE ABOVE-200 AAPL alert
evaluated at price 205 then 206 produces exactly one TRIGGERED transition
and one alert:triggered notification, on the first evaluation only. -/
theorem C3_status_monotonic :
    (∀ (db : List Alert) (sym : String) (p : ℚ) (now : ℕ) (i : ℕ) (a : Alert),
      (db.map Alert.id).Nodup → db[i]? = some a → a.status ≠ AlertStatus.ACTIVE →
      (checkAlertsForSymbol db sym p now).1[i]? = some a) ∧
    (alertTriggeredCount (checkAlertsForSymbol [aaplAlert] "AAPL" 205 1).2 = 1 ∧
      (checkAlertsForSymbol [aaplAlert] "AAPL" 205 1).1 =
        [{ aaplAlert with status := AlertStatus.TRIGGERED, triggeredAt := some 1 }] ∧
      alertTriggeredCount
        (checkAlertsForSymbol (checkAlertsForSymbol [aaplAlert] "AAPL" 205 1).1
          "AAPL" 206 2).2 = 0 ∧
      (checkAlertsForSymbol (checkAlertsForSymbol [aaplAlert] "AAPL" 205 1).1
          "AAPL" 206 2).1 =
        (checkAlertsForSymbol [aaplAlert] "AAPL" 205 1).1) := by
  constructor
  · intro db sym p now i a hnodup hget hstatus
    apply checkAlertStep_fold_preserves p now _ (db, []) i a hget
    intro b hb
    have hbm : b ∈ db := (List.mem_filter.mp hb).1
    have hbact : b.status = AlertStatus.ACTIVE := by
      have := (List.mem_filter.mp hb).2
      rw [decide_eq_true_eq] at this
      exact this.2
    intro hid
    have hba : b = a :=
      List.inj_on_of_nodup_map hnodup hbm (List.getElem?_mem hget) hid
    rw [hba] at hbact
    exact hstatus hbact
  · decide

/-- Witness for C3 on a CANCELLED alert: evaluation at a price that would
satisfy its condition leaves the row untouched. -/
theorem C3_status_monotonic_witness :
    (checkAlertsForSymbol [cancelledAlert] "MSFT" 50 3).1[0]? = some cancelledAlert :=
  C3_status_monotonic.1 [cancelledAlert] "MSFT" 50 3 0 cancelledAlert
    (by decide) (by decide) (by decide)

/-- C5: the evaluation outcome matches the condition table: ABOVE and
CROSSES_ABOVE trigger iff price ≥ target, BELOW and CROSSES_BELOW iff
price ≤ target; and a single ACTIVE alert is transitioned by
checkAlertsForSymbol iff its condition relation holds. -/
theorem C5_condition_evaluation :
    (∀ p t : ℚ,
      (evalTriggered AlertCondition.ABOVE p t = true ↔ p ≥ t) ∧
      (evalTriggered AlertCondition.BELOW p t = true ↔ p ≤ t) ∧
      (evalTriggered AlertCondition.CROSSES_ABOVE p t
        = evalTriggered AlertCondition.ABOVE p t) ∧
      (evalTriggered AlertCondition.CROSSES_BELOW p t
        = evalTriggered AlertCondition.BELOW p t)) ∧
    (∀ (a : Alert) (p : ℚ) (now : ℕ), a.status = AlertStatus.ACTIVE →
      toUpperCase a.symbol = a.symbol →
      ((checkAlertsForSymbol [a] a.symbol p now).2.length = 1 ↔
        evalTriggered a.condition p a.targetPrice = true)) := by
  constructor
  · intro p t
    refine ⟨?_, ?_, rfl, rfl⟩ <;> simp [evalTriggered]
  · intro a p now hact hup
    unfold checkAlertsForSymbol
    have hfilter : [a].filter
        (fun b => decide (b.symbol = toUpperCase a.symbol ∧ b.status = AlertStatus.ACTIVE))
        = [a] := by
      simp [List.filter, hup, hact]
    rw [hfilter]
    rw [List.foldl_cons, List.foldl_nil]
    unfold checkAlertStep
    by_cases ht : evalTriggered a.condition p a.targetPrice = true
    · rw [if_pos ht]
      simp [ht]
    · rw [if_neg ht]
      simp [ht]

/-- Witness for C5 on the concrete ACTIVE AAPL alert at price 205. -/
theorem C5_condition_evaluation_witness :
    (checkAlertsForSymbol [aaplAlert] aaplAlert.symbol 205 1).2.length = 1 ↔
      evalTriggered aaplAlert.condition 205 aaplAlert.targetPrice = true :=
  C5_condition_evaluation.2 aaplAlert 205 1 (by decide) (by decide)

/-- C6: a failed quote fetch on a poll tick publishes nothing and changes
no state; the interval survives, so a later successful tick emits the
price:update as usual; and in checkUserAlerts a symbol whose fetch fails
leaves every alert row on that symbol unchanged (ACTIVE alerts stay
ACTIVE). -/
theorem C6_fetch_failure_skips_cycle :
    (∀ (st : WSState) (sym : Sym), pollTick st sym none = (st, [])) ∧
    (∀ (st : WSState) (sym : Sym) (q : GlobalQuote),
      mapHas st.priceIntervals sym = true →
      pollTick st sym (some q) = (st, [WSEvent.priceUpdate sym q])) ∧
    (∀ (db : List Alert) (userId : ℕ) (fetch : String → Option ℚ) (now : ℕ)
        (i : ℕ) (a : Alert),
      (db.map Alert.id).Nodup → db[i]? = some a → fetch a.symbol = none →
      (checkUserAlerts db userId fetch now).1[i]? = some a) := by
  refine ⟨?_, ?_, ?_⟩
  · intro st sym
    unfold pollTick
    by_cases hh : mapHas st.priceIntervals sym = true
    · rw [if_pos hh]
    · rw [if_neg hh]
  · intro st sym q hh
    unfold pollTick
    rw [if_pos hh]
  · intro db userId fetch now i a hnodup hget hf
    apply checkUserSymbolStep_fold_preserves _ fetch now _ (db, []) i a hget
    intro b hbm
    by_cases hid : b.id = a.id
    · left
      have hba : b = a :=
        List.inj_on_of_nodup_map hnodup ((List.mem_filter.mp hbm).1)
          (List.getElem?_mem hget) hid
      rw [hba]
      exact hf
    · right
      exact hid

/-- Witness for C6: checkUserAlerts with an always-failing fetch leaves the
ACTIVE MSFT alert exactly as it was. -/
theorem C6_fetch_failure_skips_cycle_witness :
    (checkUserAlerts [msftAlert] 7 (fun _ => none) 5).1[0]? = some msftAlert :=
  C6_fetch_failure_skips_cycle.2.2 [msftAlert] 7 (fun _ => none) 5 0 msftAlert
    (by decide) (by decide) rfl

/-- Poll interval of startPricePolling, in milliseconds. -/
def pollIntervalMs : ℕ := 30000

/-- Model of the poll timer startPricePolling installs with
setInterval(async cb, 30000): the callback fires at k * pollIntervalMs for
k = 1, 2, ... after creation, and each firing immediately starts an
awaited getQuote fetch; setInterval never waits for the previous async
callback, so firings are unconditional. A fetch started at the k-th firing
completes dur k milliseconds later; inFlightFetches dur t counts the
fetches started and not yet completed at time t. -/
def inFlightFetches (dur : ℕ → ℕ) (t : ℕ) : ℕ :=
  ((List.range (t / pollIntervalMs + 1)).filter
    (fun k => decide (1 ≤ k ∧ k * pollIntervalMs ≤ t ∧
      t < k * pollIntervalMs + dur k))).length

/-- C4 counterexample: with a fetch that takes 40 s, at t = 60 s the fetch
started at the 30 s firing (completing at 70 s) is still outstanding when
the 60 s firing starts another fetch for the same symbol: two fetches are
in flight simultaneously, so a slow fetch overlaps the next cycle instead
of delaying it. -/
theorem C4_counterexample : inFlightFetches (fun _ => 40000) 60000 = 2 := by decide

/-- C4 (amended): the interval fires every 30 s regardless of the previous
fetch, so per-symbol fetches stay single-in-flight only under the
assumption that every fetch completes within the 30 s interval; under that
assumption at most one fetch is in flight at any time. -/
theorem C4_single_flight_only_if_fast (dur : ℕ → ℕ) (t : ℕ)
    (hfast : ∀ k, dur k ≤ pollIntervalMs) :
    inFlightFetches dur t ≤ 1 := by
  unfold inFlightFetches
  have key : ∀ k1 k2 : ℕ,
      (1 ≤ k1 ∧ k1 * pollIntervalMs ≤ t ∧ t < k1 * pollIntervalMs + dur k1) →
      (1 ≤ k2 ∧ k2 * pollIntervalMs ≤ t ∧ t < k2 * pollIntervalMs + dur k2) →
      k1 < k2 → False := by
    intro k1 k2 h1 h2 hlt
    have hd := hfast k1
    have hmul : (k1 + 1) * pollIntervalMs ≤ k2 * pollIntervalMs :=
      Nat.mul_le_mul_right pollIntervalMs hlt
    unfold pollIntervalMs at *
    omega
  have hnodup : ((List.range (t / pollIntervalMs + 1)).filter
      (fun k => decide (1 ≤ k ∧ k * pollIntervalMs ≤ t ∧
        t < k * pollIntervalMs + dur k))).Nodup :=
    (List.nodup_range _).filter _
  cases hl : (List.range (t / pollIntervalMs + 1)).filter
      (fun k => decide (1 ≤ k ∧ k * pollIntervalMs ≤ t ∧
        t < k * pollIntervalMs + dur k)) with
  | nil => exact Nat.zero_le 1
  | cons x tail =>
      cases tail with
      | nil => exact Nat.le_refl 1
      | cons y u =>
          exfalso
          have hxm : x ∈ (List.range (t / pollIntervalMs + 1)).filter
              (fun k => decide (1 ≤ k ∧ k * pollIntervalMs ≤ t ∧
                t < k * pollIntervalMs + dur k)) := by
            rw [hl]; exact List.mem_cons_self _ _
          have hym : y ∈ (List.range (t / pollIntervalMs + 1)).filter
              (fun k => decide (1 ≤ k ∧ k * pollIntervalMs ≤ t ∧
                t < k * pollIntervalMs + dur k)) := by
            rw [hl]; exact List.mem_cons_of_mem x (List.mem_cons_self _ _)
          have hxp : 1 ≤ x ∧ x * pollIntervalMs ≤ t ∧ t < x * pollIntervalMs + dur x := by
            have := (List.mem_filter.mp hxm).2
            rwa [decide_eq_true_eq] at this
          have hyp : 1 ≤ y ∧ y * pollIntervalMs ≤ t ∧ t < y * pollIntervalMs + dur y := by
            have := (List.mem_filter.mp hym).2
            rwa [decide_eq_true_eq] at this
          have hxy : x ≠ y := by
            rw [hl] at hnodup
            intro he
            exact (List.nodup_cons.mp hnodup).1 (he ▸ List.mem_cons_self y u)
          rcases Nat.lt_or_ge x y with hlt | hge
          · exact key x y hxp hyp hlt
          · rcases Nat.lt_or_ge y x with hlt2 | hge2
            · exact key y x hyp hxp hlt2
            · exact hxy (Nat.le_antisymm hge2 hge)

/-- Witness for C4 (amended): with 1 s fetches the in-flight count at
t = 45 s is at most one. -/
theorem C4_single_flight_only_if_fast_witness :
    inFlightFetches (fun _ => 1000) 45000 ≤ 1 :=
  C4_single_flight_only_if_fast (fun _ => 1000) 45000
    (fun k => by show (1000 : ℕ) ≤ pollIntervalMs; decide)

end MarketViz
